import Mathlib

/-
Verification of the Bayesian classifier core (`src/model/bayesian_classifier.py`)
against its natural-language specification.

Modelling conventions:
* tensors of probabilities are `List (List ℝ)` (batch of rows), labels are `List ℕ`;
* Python floats are `ℝ`; a Python exception escaping a call is `Option.none` /
  an `Except.error` element of a loader;
* the single stochastic ingredient (a fresh Monte Carlo weight sample per
  forward pass) is made explicit: where the code calls `self(x, 'MC')` inside a
  loop, the model receives the probabilities produced by the i-th pass as a
  function of i;
* the external collaborators (`BayesianLinear` layers, `Classifier.evaluate`)
  are abstracted by the interfaces the spec gives them (section 6): a layer
  carries `fwd`, `kl`, `kl_oracle_prior_variance`; the metrics helper is a
  function returning a (correct_count, total_count) pair.
-/

namespace PacBayes

/-- Python's substring containment on lists of characters: `listHasPre pat s`
is true when `pat` is an initial segment of `s`. -/
def listHasPre : List Char → List Char → Bool
  | [], _ => true
  | _ :: _, [] => false
  | a :: as, b :: bs => a == b && listHasPre as bs

/-- Python's `pat in s` substring test (`'bayesian_layer' in name` in the
source), on lists of characters. -/
def listHasSub : List Char → List Char → Bool
  | pat, [] => pat.isEmpty
  | pat, c :: rest => listHasPre pat (c :: rest) || listHasSub pat rest

/-- A stochastic layer, the external collaborator of the classifier
(`BayesianLinear`).  `ident` models Python object identity (used by
`named_modules`'s memo set); `fwd` is `layer(x, mode)`; `kl` and
`kl_oracle_prior_variance` are the layer's closed-form divergence values. -/
structure BayesianLayer where
  ident : ℕ
  fwd : String → List (List ℝ) → List (List ℝ)
  kl : ℝ
  kl_oracle_prior_variance : ℝ

/-- The child entries of `self.named_modules()` after `__init__` registered
`bayesian_layer{i}` for each position `i` of the input list: names follow the
original index, and a module already yielded (same object identity, tracked in
`seen`) is skipped, exactly as `named_modules`'s memo set does.  The root entry
`('', self)` of `named_modules` is not listed here because its name `''` can
never contain the marker `'bayesian_layer'`, so the comprehension below drops
it in any case. -/
def namedModulesGo : List ℕ → ℕ → List BayesianLayer → List (String × BayesianLayer)
  | _, _, [] => []
  | seen, i, l :: ls =>
    if l.ident ∈ seen then namedModulesGo seen (i + 1) ls
    else ("bayesian_layer" ++ toString i, l) :: namedModulesGo (l.ident :: seen) (i + 1) ls

/-- `[module for name, module in self.named_modules() if 'bayesian_layer' in name]`
(line 25 of the source). -/
def recoveredLayers (layers : List BayesianLayer) : List BayesianLayer :=
  ((namedModulesGo [] 0 layers).filter
      (fun p => listHasSub "bayesian_layer".toList p.1.toList)).map (fun p => p.2)

/-- The classifier's state after `__init__`: the recovered layer list and the
three hyperparameters, plus the `nn.Module` training-mode flag. -/
structure BayesianClassifier where
  bayesian_layers : List BayesianLayer
  prob_threshold : ℝ
  normalize_surrogate_by_log_classes : Bool
  oracle_prior_variance : Bool
  training : Bool

/-- `BayesianClassifier.__init__` (lines 19-28): registers every layer, then
recovers `self.bayesian_layers` by name introspection and stores the
hyperparameters.  A fresh `nn.Module` starts with `training = True`.  Note the
constructor performs no validation of any argument. -/
def mkBayesianClassifier (layers : List BayesianLayer) (prob_threshold : ℝ)
    (normalize orc : Bool) : BayesianClassifier :=
  ⟨recoveredLayers layers, prob_threshold, normalize, orc, true⟩

/-- `forward(self, x, mode)` (lines 30-33): threads `x` through every layer of
`self.bayesian_layers` in order, passing the shared mode tag. -/
def BayesianClassifier.forward (c : BayesianClassifier) (x : List (List ℝ))
    (mode : String) : List (List ℝ) :=
  c.bayesian_layers.foldl (fun acc layer => layer.fwd mode acc) x

/-- `kl(self)` (lines 53-60): sums over `self.bayesian_layers`, starting from
`0.0`, each layer's `kl_oracle_prior_variance()` when the oracle flag is set
and `kl()` otherwise. -/
noncomputable def BayesianClassifier.netKL (c : BayesianClassifier) : ℝ :=
  c.bayesian_layers.foldl
    (fun net_kl layer =>
      if c.oracle_prior_variance then net_kl + layer.kl_oracle_prior_variance
      else net_kl + layer.kl)
    0

/-- The per-example value of `surrogate` (lines 62-70) at one row of `probs`
and its label: `probs.gather(1, y)` picks `row[label]`, `clamp(min=t, max=1)`
is `min (max · t) 1`, then the log is negated; normalization divides by
`log(n_classes)` where `n_classes = probs.shape[-1]`. -/
noncomputable def surrogateEntry (prob_threshold : ℝ) (n_classes : ℕ)
    (normalize : Bool) (row : List ℝ) (label : ℕ) : ℝ :=
  let gathered := row.getD label 0
  let log_likelihood := Real.log (min (max gathered prob_threshold) 1)
  let s := -log_likelihood
  if normalize then s / Real.log (n_classes : ℝ) else s

/-- `surrogate(probs, y, prob_threshold, normalize_surrogate_by_log_classes)`
(lines 62-70), static: `y.view([y.shape[0], -1])` pairs each row of `probs`
with its label, and the result is the per-example vector of clamped negative
log-likelihoods.  `n_classes` is the trailing dimension of `probs`. -/
noncomputable def surrogate (probs : List (List ℝ)) (y : List ℕ)
    (prob_threshold : ℝ) (normalize : Bool) : List ℝ :=
  List.zipWith (surrogateEntry prob_threshold (probs.headD []).length normalize) probs y

/-- Mean of a list of reals, `tensor.mean()` on a vector. -/
noncomputable def listMean (l : List ℝ) : ℝ := l.sum / (l.length : ℝ)

/-- `forward_train(self, x, y, n_samples)` (lines 35-51).  `sampleProbs i` is
the probability matrix produced by the i-th Monte Carlo pass `self(x, 'MC')`
(the one stochastic ingredient, made explicit).  `n_samples` is a Python int,
so it is modelled as `ℤ`: `range(n_samples)` is empty when `n_samples ≤ 0`,
and the final `running_kl / n_samples` raises `ZeroDivisionError` (modelled by
`none`) exactly when `n_samples = 0`, because only then is `running_kl` still
the float `0.0` divided by the int `0`. -/
noncomputable def forward_train (c : BayesianClassifier)
    (sampleProbs : ℕ → List (List ℝ)) (y : List ℕ) (n_samples : ℤ) :
    Option (ℝ × ℝ) :=
  let run := (List.range n_samples.toNat).foldl
    (fun running i =>
      (running.1 + c.netKL,
       running.2 + listMean (surrogate (sampleProbs i) y c.prob_threshold
         c.normalize_surrogate_by_log_classes)))
    (0, 0)
  if n_samples = 0 then none
  else some (run.1 / (n_samples : ℝ), run.2 / (n_samples : ℝ))

/-- `quad_bound(risk, kl, dataset_size, delta)` (lines 72-78). -/
noncomputable def quad_bound (risk kl dataset_size delta : ℝ) : ℝ :=
  let log_2_sqrt_n_over_delta := Real.log (2 * Real.sqrt dataset_size / delta)
  let fraction := (kl + log_2_sqrt_n_over_delta) / (2 * dataset_size)
  let sqrt1 := Real.sqrt (risk + fraction)
  let sqrt2 := Real.sqrt fraction
  (sqrt1 + sqrt2) ^ 2

/-- `pinsker_bound(risk, kl, dataset_size, delta)` (lines 87-90). -/
noncomputable def pinsker_bound (risk kl dataset_size delta : ℝ) : ℝ :=
  let B := (kl + Real.log (2 * Real.sqrt dataset_size / delta)) / dataset_size
  risk + Real.sqrt (B / 2)

/-- `inverted_kl_bound(risk, kl, dataset_size, delta)` (lines 92-97):
`torch.min` of the two bounds, i.e. the pointwise minimum. -/
noncomputable def inverted_kl_bound (risk kl dataset_size delta : ℝ) : ℝ :=
  min (quad_bound risk kl dataset_size delta) (pinsker_bound risk kl dataset_size delta)

/-- One `(input_batch, label_batch)` pair drawn from a loader. -/
abbrev Batch := List (List ℝ) × List ℕ

/-- Modelled from the spec: the classification metrics helper
`Classifier.evaluate(probs, labels) -> (correct_count, total_count)` lives in
`src/model/classifier.py`, which is not part of the sources; the spec fixes
only its signature, so it is abstracted as a function parameter of this
interface type. -/
abbrev MetricsHelper := List (List ℝ) → List ℕ → ℝ × ℝ

/-- The accumulation loop of `evaluate_on_loader` (lines 103-117): running
sums of corrects, totals and summed surrogate over the loader's batches.  An
`Except.error` element is the loader raising at that point of the iteration;
the exception propagates (`none`) and the remaining batches are never seen. -/
noncomputable def evalLoop (ce : MetricsHelper) (c : BayesianClassifier) :
    List (Except Unit Batch) → ℝ → ℝ → ℝ → Option (ℝ × ℝ × ℝ)
  | [], corrects, totals, surrogates => some (corrects, totals, surrogates)
  | Except.error _ :: _, _, _, _ => none
  | Except.ok b :: rest, corrects, totals, surrogates =>
    let probs := c.forward b.1 "MC"
    let ct := ce probs b.2
    let surrogate_batch :=
      surrogate probs b.2 c.prob_threshold c.normalize_surrogate_by_log_classes
    evalLoop ce c rest (corrects + ct.1) (totals + ct.2) (surrogates + surrogate_batch.sum)

/-- `evaluate_on_loader(self, loader)` (lines 99-122).  Returns the value the
call produces (`none` when an exception escapes: a loader failure
mid-iteration, or the `ZeroDivisionError` of `corrects / totals` when the
accumulated total is zero) together with the classifier's training-mode flag
at the moment control leaves the method.  The source saves `training`, calls
`self.eval()` (flag `false` for the whole loop), and only executes
`self.train(mode=training)` on the straight-line path after the divisions:
there is no `try`/`finally`, so on the `none` paths the flag is left at
`false`. -/
noncomputable def evaluate_on_loader (ce : MetricsHelper) (c : BayesianClassifier)
    (loader : List (Except Unit Batch)) : Option (ℝ × ℝ) × Bool :=
  let training := c.training
  match evalLoop ce c loader 0 0 0 with
  | none => (none, false)
  | some res =>
    if res.2.1 = 0 then (none, false)
    else (some (1 - res.1 / res.2.1, res.2.2 / res.2.1), training)

/-- Sum of the per-batch correct counts returned by the metrics helper over a
list of batches (the value `corrects` holds after a completed loop). -/
noncomputable def runCorrects (ce : MetricsHelper) (c : BayesianClassifier)
    (bs : List Batch) : ℝ :=
  (bs.map (fun b => (ce (c.forward b.1 "MC") b.2).1)).sum

/-- Sum of the per-batch total counts returned by the metrics helper. -/
noncomputable def runTotals (ce : MetricsHelper) (c : BayesianClassifier)
    (bs : List Batch) : ℝ :=
  (bs.map (fun b => (ce (c.forward b.1 "MC") b.2).2)).sum

/-- Sum over all batches of the summed per-example surrogate values.  The
metrics-helper argument is kept for signature symmetry with the other two
running sums. -/
noncomputable def runSurrogates (_ce : MetricsHelper) (c : BayesianClassifier)
    (bs : List Batch) : ℝ :=
  (bs.map (fun b =>
    (surrogate (c.forward b.1 "MC") b.2 c.prob_threshold
      c.normalize_surrogate_by_log_classes).sum)).sum

/-- Replacing every layer's `kl_oracle_prior_variance` value (what "swapping
which per-layer formula is used" can change) while keeping everything else. -/
def withOracleValues (c : BayesianClassifier) (g : BayesianLayer → ℝ) :
    BayesianClassifier :=
  ⟨c.bayesian_layers.map (fun l => ⟨l.ident, l.fwd, l.kl, g l⟩),
    c.prob_threshold, c.normalize_surrogate_by_log_classes,
    c.oracle_prior_variance, c.training⟩

/-- A concrete stochastic layer used to evaluate the model on explicit
inputs: identity forward, kl value 1, oracle kl value 2. -/
noncomputable def exLayer : BayesianLayer := ⟨0, fun _ x => x, 1, 2⟩

/-- A concrete classifier: one layer, `prob_threshold = 1/4`, no surrogate
normalization, standard (non-oracle) KL.  As after any `__init__`, its
training flag is `true`. -/
noncomputable def exClassifier : BayesianClassifier :=
  mkBayesianClassifier [exLayer] (1 / 4) false false

/-- A concrete classifier like `exClassifier` but with the oracle-prior flag
set. -/
noncomputable def exClassifierOracle : BayesianClassifier :=
  mkBayesianClassifier [exLayer] (1 / 4) false true

/-- A concrete metrics helper that reports every batch as one correct
prediction out of one example. -/
noncomputable def exMetrics : MetricsHelper := fun _ _ => (1, 1)

/-- A concrete single-example batch. -/
noncomputable def exBatch : Batch := ([[1]], [0])

/-- A concrete Monte Carlo sampling history: every pass yields the same
one-row probability matrix. -/
noncomputable def exProbs : ℕ → List (List ℝ) := fun _ => [[1]]

/-- A concrete label vector. -/
def exY : List ℕ := [0]

/-- Accumulating a sum with `foldl` starting from `a` is `a` plus the list
sum of the mapped values. -/
theorem foldl_add_map {α : Type} (f : α → ℝ) (L : List α) :
    ∀ a : ℝ, L.foldl (fun acc l => acc + f l) a = a + (L.map f).sum := by
  induction L with
  | nil => intro a; simp
  | cons l ls ih =>
    intro a
    simp only [List.foldl_cons, List.map_cons, List.sum_cons, ih]
    ring

/-- The fold in `kl()` computes the sum, over the registered layers, of the
per-layer divergence selected by the oracle flag, starting from `0.0`. -/
theorem netKL_eq_sum (c : BayesianClassifier) :
    c.netKL = (c.bayesian_layers.map
      (fun l => if c.oracle_prior_variance then l.kl_oracle_prior_variance else l.kl)).sum := by
  unfold BayesianClassifier.netKL
  have hfun : (fun (net_kl : ℝ) (layer : BayesianLayer) =>
      if c.oracle_prior_variance then net_kl + layer.kl_oracle_prior_variance
      else net_kl + layer.kl) =
      fun (net_kl : ℝ) (layer : BayesianLayer) =>
        net_kl + (if c.oracle_prior_variance then layer.kl_oracle_prior_variance
          else layer.kl) := by
    funext a l
    by_cases h : c.oracle_prior_variance <;> simp [h]
  rw [hfun, foldl_add_map, zero_add]

/-- The unfolded closed form of `quad_bound`. -/
theorem quad_bound_def (risk kl n d : ℝ) :
    quad_bound risk kl n d =
      (Real.sqrt (risk + (kl + Real.log (2 * Real.sqrt n / d)) / (2 * n)) +
        Real.sqrt ((kl + Real.log (2 * Real.sqrt n / d)) / (2 * n))) ^ 2 := rfl

/-- The unfolded closed form of `pinsker_bound`. -/
theorem pinsker_bound_def (risk kl n d : ℝ) :
    pinsker_bound risk kl n d =
      risk + Real.sqrt ((kl + Real.log (2 * Real.sqrt n / d)) / n / 2) := rfl

/-- C3: for all arguments, `quad_bound(risk, kl, dataset_size, delta)` equals
`(sqrt(risk + c) + sqrt(c))^2` with
`c = (kl + log(2·sqrt(dataset_size)/delta)) / (2·dataset_size)`, and
`pinsker_bound(risk, kl, dataset_size, delta)` equals `risk + sqrt(B/2)` with
`B = (kl + log(2·sqrt(dataset_size)/delta)) / dataset_size`.  This holds for
every real argument, in particular on the claim's domain `risk ≥ 0`,
`kl ≥ 0`, `dataset_size > 0`, `delta ∈ (0,1)`. -/
theorem claim_C3 (risk kl dataset_size delta : ℝ) :
    quad_bound risk kl dataset_size delta =
      (Real.sqrt (risk + (kl + Real.log (2 * Real.sqrt dataset_size / delta)) /
          (2 * dataset_size)) +
        Real.sqrt ((kl + Real.log (2 * Real.sqrt dataset_size / delta)) /
          (2 * dataset_size))) ^ 2
    ∧ pinsker_bound risk kl dataset_size delta =
        risk + Real.sqrt ((kl + Real.log (2 * Real.sqrt dataset_size / delta)) /
          dataset_size / 2) :=
  ⟨rfl, rfl⟩

/-- C6: for every classifier, whichever way the oracle flag is set, `kl()` is
the sum, over every registered layer exactly once, of
`kl_oracle_prior_variance` when the flag is set and `kl` otherwise, with the
accumulator starting at `0.0`; replacing every layer's oracle value leaves
the result unchanged when the flag is unset, and makes the result the sum of
the replacement values when the flag is set (so the formula swap changes the
result only when the flag is set).  The model is a pure function of the
classifier state, so the call is side-effect free. -/
theorem claim_C6 (c : BayesianClassifier) (g : BayesianLayer → ℝ) :
    c.netKL = (c.bayesian_layers.map
      (fun l => if c.oracle_prior_variance then l.kl_oracle_prior_variance else l.kl)).sum
    ∧ (c.oracle_prior_variance = false → (withOracleValues c g).netKL = c.netKL)
    ∧ (c.oracle_prior_variance = true →
        (withOracleValues c g).netKL = (c.bayesian_layers.map g).sum) := by
  refine ⟨netKL_eq_sum c, ?_, ?_⟩
  · intro h
    rw [netKL_eq_sum, netKL_eq_sum]
    simp [withOracleValues, h, List.map_map, Function.comp_def]
  · intro h
    rw [netKL_eq_sum]
    simp [withOracleValues, h, List.map_map, Function.comp_def]

/-- C6 witness: overwriting every oracle value with 5 leaves `kl()` unchanged
on the concrete flag-unset classifier, and turns `kl()` into the sum of the
replacement values on the concrete flag-set classifier. -/
theorem claim_C6_witness :
    (withOracleValues exClassifier (fun _ => 5)).netKL = exClassifier.netKL
    ∧ (withOracleValues exClassifierOracle (fun _ => 5)).netKL =
        (exClassifierOracle.bayesian_layers.map (fun _ => (5 : ℝ))).sum :=
  ⟨(claim_C6 exClassifier (fun _ => 5)).2.1 rfl,
   (claim_C6 exClassifierOracle (fun _ => 5)).2.2 rfl⟩

/-- A pattern is an initial segment of itself followed by anything. -/
theorem listHasPre_append (pat t : List Char) : listHasPre pat (pat ++ t) = true := by
  induction pat with
  | nil => rfl
  | cons a as ih => simp [listHasPre, ih]

/-- An initial segment is in particular a substring. -/
theorem listHasSub_of_pre (pat l : List Char) (h : listHasPre pat l = true) :
    listHasSub pat l = true := by
  cases l with
  | nil =>
    cases pat with
    | nil => rfl
    | cons a as => simp [listHasPre] at h
  | cons c rest => simp [listHasSub, h]

/-- Every name `__init__` registers contains the marker `'bayesian_layer'`. -/
theorem marker_in_registered_name (i : ℕ) :
    listHasSub "bayesian_layer".toList ("bayesian_layer" ++ toString i).toList = true := by
  have hsplit : ("bayesian_layer" ++ toString i).toList =
      "bayesian_layer".toList ++ (toString i).toList := by
    simp [String.toList, String.data_append]
  rw [hsplit]
  exact listHasSub_of_pre _ _ (listHasPre_append _ _)

/-- When the supplied layers have pairwise distinct identities, none of them
already recorded in the memo, the registered-name scan recovers exactly the
supplied list, in order. -/
theorem namedModulesGo_recover (layers : List BayesianLayer) :
    ∀ (seen : List ℕ) (i : ℕ),
      (∀ l ∈ layers, l.ident ∉ seen) →
      (layers.map (fun l => l.ident)).Nodup →
      ((namedModulesGo seen i layers).filter
          (fun p => listHasSub "bayesian_layer".toList p.1.toList)).map (fun p => p.2)
        = layers := by
  induction layers with
  | nil => intro seen i _ _; rfl
  | cons l ls ih =>
    intro seen i hdisj hnd
    have hl : l.ident ∉ seen := hdisj l (List.mem_cons_self l ls)
    have hnd' : (l.ident ∉ ls.map (fun l => l.ident)) ∧
        (ls.map (fun l => l.ident)).Nodup := by
      rw [List.map_cons] at hnd
      exact List.nodup_cons.mp hnd
    rw [namedModulesGo, if_neg hl, List.filter_cons_of_pos, List.map_cons]
    · rw [ih (l.ident :: seen) (i + 1) ?_ hnd'.2]
      intro l' hl'
      rw [List.mem_cons]
      push_neg
      refine ⟨?_, hdisj l' (List.mem_cons_of_mem _ hl')⟩
      intro he
      exact hnd'.1 (he ▸ List.mem_map_of_mem _ hl')
    · exact marker_in_registered_name i

/-- `self.bayesian_layers` equals the supplied ordered list whenever the
supplied layers are pairwise distinct objects. -/
theorem recoveredLayers_eq (layers : List BayesianLayer)
    (hnd : (layers.map (fun l => l.ident)).Nodup) :
    recoveredLayers layers = layers :=
  namedModulesGo_recover layers [] 0 (by simp) hnd

/-- C10 counterexample: the claim quantifies over every ordered list of
layers, but registering the same layer object twice makes `named_modules`'s
memo yield it once, so the recovered list has one element rather than two. -/
theorem claim_C10_counterexample :
    recoveredLayers [exLayer, exLayer] ≠ [exLayer, exLayer] := by
  intro h
  have hlen : (recoveredLayers [exLayer, exLayer]).length = 1 := rfl
  rw [h] at hlen
  simp at hlen

/-- C10 (amended): provided the supplied layers are pairwise distinct objects,
the name-introspection scan recovers exactly the supplied list, same count and
order with no extra modules, and this recovered list is the one `forward`
threads through in order and the one `kl()` sums over, each layer exactly
once. -/
theorem claim_C10 (layers : List BayesianLayer) (t : ℝ) (norm orc : Bool)
    (hids : (layers.map (fun l => l.ident)).Nodup) :
    (mkBayesianClassifier layers t norm orc).bayesian_layers = layers
    ∧ (∀ x mode, (mkBayesianClassifier layers t norm orc).forward x mode =
        layers.foldl (fun acc l => l.fwd mode acc) x)
    ∧ (mkBayesianClassifier layers t norm orc).netKL =
        (layers.map (fun l => if orc then l.kl_oracle_prior_variance else l.kl)).sum := by
  have hrec : (mkBayesianClassifier layers t norm orc).bayesian_layers = layers :=
    recoveredLayers_eq layers hids
  refine ⟨hrec, ?_, ?_⟩
  · intro x mode
    unfold BayesianClassifier.forward
    rw [hrec]
  · rw [netKL_eq_sum, hrec]
    rfl

/-- C10 witness: the concrete one-layer classifier recovers its singleton
layer list. -/
theorem claim_C10_witness :
    (mkBayesianClassifier [exLayer] (1 / 4) false false).bayesian_layers = [exLayer] :=
  (claim_C10 [exLayer] (1 / 4) false false (by simp)).1

/-- Every element of a `zipWith` comes from a pair of elements of the zipped
lists. -/
theorem mem_of_mem_zipWith {α β γ : Type} (f : α → β → γ) :
    ∀ (l1 : List α) (l2 : List β) (v : γ), v ∈ List.zipWith f l1 l2 →
      ∃ a b, a ∈ l1 ∧ b ∈ l2 ∧ v = f a b := by
  intro l1
  induction l1 with
  | nil => intro l2 v h; simp at h
  | cons a as ih =>
    intro l2 v h
    cases l2 with
    | nil => simp at h
    | cons b bs =>
      rw [List.zipWith_cons_cons] at h
      rcases List.mem_cons.mp h with h1 | h2
      · exact ⟨a, b, List.mem_cons_self a as, List.mem_cons_self b bs, h1⟩
      · obtain ⟨a', b', ha, hb, hv⟩ := ih bs v h2
        exact ⟨a', b', List.mem_cons_of_mem _ ha, List.mem_cons_of_mem _ hb, hv⟩

/-- The clamp `clamp(min=t, max=1)` lands in `[t, 1]` whenever `t ≤ 1`,
whatever the gathered probability is. -/
theorem clamp_bounds (p t : ℝ) (h1 : t ≤ 1) :
    t ≤ min (max p t) 1 ∧ min (max p t) 1 ≤ 1 :=
  ⟨le_min (le_max_right p t) h1, min_le_right _ _⟩

/-- The negated log of the clamped probability lies in `[0, -log t]` for a
threshold `t ∈ (0, 1]`. -/
theorem neg_log_clamp_bounds (p t : ℝ) (h0 : 0 < t) (h1 : t ≤ 1) :
    0 ≤ -Real.log (min (max p t) 1) ∧
      -Real.log (min (max p t) 1) ≤ -Real.log t := by
  obtain ⟨hlo, hhi⟩ := clamp_bounds p t h1
  constructor
  · exact neg_nonneg.mpr (Real.log_nonpos (le_trans (le_of_lt h0) hlo) hhi)
  · exact neg_le_neg (Real.log_le_log h0 hlo)

/-- C2: `surrogate` is the per-example vector of `surrogateEntry` values over
the rows of `probs` paired with their labels; each entry is exactly
`-log(clamp(p_true_class, [t, 1]))`, divided by `log(num_classes)` when
normalization is on (`num_classes` the trailing dimension of `probs`); every
returned value lies in `[0, -log t]` (scaled by `1/log(num_classes)` when
normalized); and an entry equals exactly the scaled `-log t` whenever the
true-class probability is at or below `t`. -/
theorem claim_C2 (probs : List (List ℝ)) (y : List ℕ) (t : ℝ) (norm : Bool)
    (ht0 : 0 < t) (ht1 : t < 1)
    (hn : norm = true → 2 ≤ (probs.headD []).length) :
    surrogate probs y t norm =
      List.zipWith (surrogateEntry t (probs.headD []).length norm) probs y
    ∧ (∀ row label,
        surrogateEntry t (probs.headD []).length norm row label =
          if norm then
            -Real.log (min (max (row.getD label 0) t) 1) /
              Real.log (((probs.headD []).length : ℕ) : ℝ)
          else -Real.log (min (max (row.getD label 0) t) 1))
    ∧ (∀ v ∈ surrogate probs y t norm,
        0 ≤ v ∧ v ≤ (if norm then
          -Real.log t / Real.log (((probs.headD []).length : ℕ) : ℝ)
          else -Real.log t))
    ∧ (∀ row label, row.getD label 0 ≤ t →
        surrogateEntry t (probs.headD []).length norm row label =
          if norm then
            -Real.log t / Real.log (((probs.headD []).length : ℕ) : ℝ)
          else -Real.log t) := by
  set nc := (probs.headD []).length with hnc
  have hentry : ∀ row label,
      surrogateEntry t nc norm row label =
        if norm then
          -Real.log (min (max (row.getD label 0) t) 1) / Real.log ((nc : ℕ) : ℝ)
        else -Real.log (min (max (row.getD label 0) t) 1) := fun _ _ => rfl
  have hbounds : ∀ row label,
      0 ≤ surrogateEntry t nc norm row label ∧
        surrogateEntry t nc norm row label ≤
          (if norm then -Real.log t / Real.log ((nc : ℕ) : ℝ) else -Real.log t) := by
    intro row label
    obtain ⟨hnn, hle⟩ := neg_log_clamp_bounds (row.getD label 0) t ht0 (le_of_lt ht1)
    rw [hentry]
    cases norm with
    | false => exact ⟨hnn, by simpa using hle⟩
    | true =>
      have hlog : 0 < Real.log ((nc : ℕ) : ℝ) := by
        apply Real.log_pos
        have := hn rfl
        exact_mod_cast lt_of_lt_of_le one_lt_two (by exact_mod_cast this)
      simp only [if_true]
      exact ⟨div_nonneg hnn (le_of_lt hlog), by gcongr⟩
  refine ⟨rfl, hentry, ?_, ?_⟩
  · intro v hv
    obtain ⟨row, label, _, _, hveq⟩ :=
      mem_of_mem_zipWith (surrogateEntry t nc norm) probs y v hv
    exact hveq ▸ hbounds row label
  · intro row label hpt
    rw [hentry]
    have hmax : max (row.getD label 0) t = t := max_eq_right hpt
    have hmin : min t 1 = t := min_eq_left (le_of_lt ht1)
    rw [hmax, hmin]

/-- C2 witness: concrete two-class instance, threshold 1/4, normalization on:
the entry at a row `[1/2, 1/2]` with label 0 is nonnegative. -/
theorem claim_C2_witness :
    0 ≤ surrogateEntry (1 / 4) ([[(1:ℝ)/2, 1/2]].headD []).length true [(1:ℝ)/2, 1/2] 0 := by
  have h := claim_C2 [[(1:ℝ)/2, 1/2]] [0] (1 / 4) true (by norm_num) (by norm_num)
    (fun _ => by norm_num)
  have hv : surrogateEntry (1 / 4) ([[(1:ℝ)/2, 1/2]].headD []).length true [(1:ℝ)/2, 1/2] 0
      ∈ surrogate [[(1:ℝ)/2, 1/2]] [0] (1 / 4) true := by
    rw [h.1]
    simp
  exact (h.2.2.1 _ hv).1

/-- For a positive dataset size (a count, hence at least 1), its square root
is at least 1. -/
theorem sqrt_dataset_ge_one (m : ℕ) (hm : 0 < m) : 1 ≤ Real.sqrt (m : ℝ) := by
  rw [show (1 : ℝ) = Real.sqrt 1 from Real.sqrt_one.symm]
  exact Real.sqrt_le_sqrt (by exact_mod_cast hm)

/-- The shared log term `log(2·sqrt(dataset_size)/delta)` is nonnegative on
the claim's domain. -/
theorem logterm_nonneg (m : ℕ) (δ : ℝ) (hm : 0 < m) (h0 : 0 < δ) (h1 : δ < 1) :
    0 ≤ Real.log (2 * Real.sqrt (m : ℝ) / δ) := by
  apply Real.log_nonneg
  rw [le_div_iff₀ h0]
  have := sqrt_dataset_ge_one m hm
  nlinarith

/-- The log term is antitone in `delta`. -/
theorem logterm_anti (m : ℕ) (δ δ' : ℝ) (hm : 0 < m) (h0 : 0 < δ) (hδδ : δ ≤ δ') :
    Real.log (2 * Real.sqrt (m : ℝ) / δ') ≤ Real.log (2 * Real.sqrt (m : ℝ) / δ) := by
  have h0' : 0 < δ' := lt_of_lt_of_le h0 hδδ
  have hs : 0 < Real.sqrt (m : ℝ) := lt_of_lt_of_le one_pos (sqrt_dataset_ge_one m hm)
  apply Real.log_le_log (by positivity)
  exact div_le_div_of_nonneg_left (by positivity) h0 hδδ

/-- The quadratic bound's core `(sqrt(r + a/(2m)) + sqrt(a/(2m)))^2` is
monotone in its numerator `a`. -/
theorem quad_core_le (r m a b : ℝ) (hm : 0 < m) (hab : a ≤ b) :
    (Real.sqrt (r + a / (2 * m)) + Real.sqrt (a / (2 * m))) ^ 2 ≤
      (Real.sqrt (r + b / (2 * m)) + Real.sqrt (b / (2 * m))) ^ 2 := by
  have h2m : (0 : ℝ) < 2 * m := by linarith
  have hdiv : a / (2 * m) ≤ b / (2 * m) := by gcongr
  exact pow_le_pow_left₀ (by positivity)
    (add_le_add (Real.sqrt_le_sqrt (by linarith)) (Real.sqrt_le_sqrt hdiv)) 2

/-- The Pinsker bound's core `r + sqrt(a/m/2)` is monotone in its numerator
`a`. -/
theorem pinsker_core_le (r m a b : ℝ) (hm : 0 < m) (hab : a ≤ b) :
    r + Real.sqrt (a / m / 2) ≤ r + Real.sqrt (b / m / 2) := by
  have hdiv : a / m ≤ b / m := by gcongr
  exact add_le_add_left (Real.sqrt_le_sqrt (by linarith)) r

/-- `(sqrt(r + c) + sqrt c)^2` dominates `r` when `r, c ≥ 0`. -/
theorem risk_le_quad_core (r c : ℝ) (hr : 0 ≤ r) (hc : 0 ≤ c) :
    r ≤ (Real.sqrt (r + c) + Real.sqrt c) ^ 2 := by
  have h1 : Real.sqrt (r + c) ^ 2 = r + c := Real.sq_sqrt (by linarith)
  have h2 : Real.sqrt (r + c) ^ 2 ≤ (Real.sqrt (r + c) + Real.sqrt c) ^ 2 :=
    pow_le_pow_left₀ (Real.sqrt_nonneg _) (by linarith [Real.sqrt_nonneg c]) 2
  linarith

/-- C4: `inverted_kl_bound` is the pointwise minimum of `quad_bound` and
`pinsker_bound`, hence at most each of them; it dominates the risk; it is
non-decreasing in `kl` and non-increasing in `delta` for fixed risk and
dataset size (the dataset size being a positive count). -/
theorem claim_C4 (risk kl kl' : ℝ) (m : ℕ) (δ δ' : ℝ)
    (hr : 0 ≤ risk) (hk : 0 ≤ kl) (hkk : kl ≤ kl') (hm : 0 < m)
    (hδ0 : 0 < δ) (hδδ : δ ≤ δ') (hδ1 : δ' < 1) :
    inverted_kl_bound risk kl (m : ℝ) δ =
      min (quad_bound risk kl (m : ℝ) δ) (pinsker_bound risk kl (m : ℝ) δ)
    ∧ inverted_kl_bound risk kl (m : ℝ) δ ≤ quad_bound risk kl (m : ℝ) δ
    ∧ inverted_kl_bound risk kl (m : ℝ) δ ≤ pinsker_bound risk kl (m : ℝ) δ
    ∧ risk ≤ inverted_kl_bound risk kl (m : ℝ) δ
    ∧ inverted_kl_bound risk kl (m : ℝ) δ ≤ inverted_kl_bound risk kl' (m : ℝ) δ
    ∧ inverted_kl_bound risk kl (m : ℝ) δ' ≤ inverted_kl_bound risk kl (m : ℝ) δ := by
  have hδ1' : δ < 1 := lt_of_le_of_lt hδδ hδ1
  have hm' : (0 : ℝ) < (m : ℝ) := by exact_mod_cast hm
  have hL : 0 ≤ Real.log (2 * Real.sqrt (m : ℝ) / δ) := logterm_nonneg m δ hm hδ0 hδ1'
  refine ⟨rfl, min_le_left _ _, min_le_right _ _, ?_, ?_, ?_⟩
  · apply le_min
    · have hc : 0 ≤ (kl + Real.log (2 * Real.sqrt (m : ℝ) / δ)) / (2 * (m : ℝ)) := by
        positivity
      exact risk_le_quad_core risk _ hr hc
    · exact le_add_of_nonneg_right (Real.sqrt_nonneg _)
  · apply min_le_min
    · exact quad_core_le risk (m : ℝ) _ _ hm' (by linarith)
    · exact pinsker_core_le risk (m : ℝ) _ _ hm' (by linarith)
  · have hanti := logterm_anti m δ δ' hm hδ0 hδδ
    apply min_le_min
    · exact quad_core_le risk (m : ℝ) _ _ hm' (by linarith)
    · exact pinsker_core_le risk (m : ℝ) _ _ hm' (by linarith)

/-- C4 witness: concrete instance `risk = 0`, `kl = 0 ≤ 1 = kl'`, dataset
size 1, `delta = 1/4 ≤ 1/2 = delta' < 1`: the combined bound dominates the
risk. -/
theorem claim_C4_witness :
    (0 : ℝ) ≤ inverted_kl_bound 0 0 ((1 : ℕ) : ℝ) (1 / 4) :=
  (claim_C4 0 0 1 1 (1 / 4) (1 / 2) (le_refl 0) (le_refl 0) (by norm_num)
    one_pos (by norm_num) (by norm_num) (by norm_num)).2.2.2.1

/-- The interleaved pair accumulation of `forward_train`'s loop: a constant
increment of the first component and a per-iteration increment of the second
yield the corresponding sums. -/
theorem foldl_pair_const_add (k : ℝ) (g : ℕ → ℝ) :
    ∀ (m : ℕ) (a b : ℝ),
      (List.range m).foldl (fun p i => (p.1 + k, p.2 + g i)) (a, b)
        = (a + m * k, b + ∑ i in Finset.range m, g i) := by
  intro m
  induction m with
  | zero => intro a b; simp
  | succ j ih =>
    intro a b
    rw [List.range_succ, List.foldl_append, ih]
    simp only [List.foldl_cons, List.foldl_nil, Finset.sum_range_succ]
    rw [Prod.mk.injEq]
    constructor
    · push_cast
      ring
    · ring

/-- C5: for `n_samples ≥ 1`, `forward_train` returns the pair of arithmetic
means over the `n_samples` Monte Carlo passes: the mean of the per-sample
total KL (each pass recomputes `kl()`, so the sum is `n_samples`-many copies
of it) and the mean of the per-sample batch-mean surrogate, where
`sampleProbs i` is the probability matrix of the i-th `'MC'` forward pass. -/
theorem claim_C5 (c : BayesianClassifier) (sampleProbs : ℕ → List (List ℝ))
    (y : List ℕ) (n : ℕ) (hn : 1 ≤ n) :
    forward_train c sampleProbs y (n : ℤ) =
      some ((∑ _i in Finset.range n, c.netKL) / (n : ℝ),
        (∑ i in Finset.range n,
          listMean (surrogate (sampleProbs i) y c.prob_threshold
            c.normalize_surrogate_by_log_classes)) / (n : ℝ)) := by
  have hne : (n : ℤ) ≠ 0 := by omega
  have hfold := foldl_pair_const_add c.netKL
    (fun i => listMean (surrogate (sampleProbs i) y c.prob_threshold
      c.normalize_surrogate_by_log_classes)) n 0 0
  simp only [forward_train, Int.toNat_natCast, hfold, if_neg hne, zero_add]
  rw [Finset.sum_const, Finset.card_range, nsmul_eq_mul]
  push_cast
  ring_nf

/-- C5 witness: one sample on the concrete classifier gives exactly the
(mean KL, mean surrogate) pair. -/
theorem claim_C5_witness :
    forward_train exClassifier exProbs exY ((1 : ℕ) : ℤ) =
      some ((∑ _i in Finset.range 1, exClassifier.netKL) / ((1 : ℕ) : ℝ),
        (∑ i in Finset.range 1,
          listMean (surrogate (exProbs i) exY exClassifier.prob_threshold
            exClassifier.normalize_surrogate_by_log_classes)) / ((1 : ℕ) : ℝ)) :=
  claim_C5 exClassifier exProbs exY 1 (le_refl 1)

/-- C7: the code does not validate `n_samples`.  At the failing input
`n_samples = -1` the loop body never runs and `forward_train` silently
returns `(0.0 / -1, 0.0 / -1) = (-0.0, -0.0)` instead of failing; only at
`n_samples = 0` does the final division raise (`ZeroDivisionError`, the
`none` value), and that error is a bare division error, not a descriptive
precondition message. -/
theorem claim_C7 :
    forward_train exClassifier exProbs exY (-1) = some (0, 0)
    ∧ forward_train exClassifier exProbs exY 0 = none := by
  constructor
  · simp [forward_train]
  · simp [forward_train]

/-- A completed pass over a loader of good batches accumulates the per-batch
correct counts, total counts and summed surrogates onto the running sums. -/
theorem evalLoop_ok_eq (ce : MetricsHelper) (c : BayesianClassifier) (bs : List Batch) :
    ∀ a b s : ℝ,
      evalLoop ce c (bs.map Except.ok) a b s =
        some (a + runCorrects ce c bs, b + runTotals ce c bs, s + runSurrogates ce c bs) := by
  induction bs with
  | nil => intro a b s; simp [evalLoop, runCorrects, runTotals, runSurrogates]
  | cons bt rest ih =>
    intro a b s
    simp only [List.map_cons, evalLoop, ih, runCorrects, runTotals, runSurrogates,
      List.sum_cons, Option.some.injEq, Prod.mk.injEq]
    refine ⟨by ring, by ring, by ring⟩

/-- A loader that raises after a prefix of good batches makes the loop
propagate the exception, whatever was accumulated so far. -/
theorem evalLoop_error_eq (ce : MetricsHelper) (c : BayesianClassifier)
    (pre : List Batch) (e : Unit) (post : List (Except Unit Batch)) :
    ∀ a b s : ℝ,
      evalLoop ce c (pre.map Except.ok ++ Except.error e :: post) a b s = none := by
  induction pre with
  | nil => intro a b s; rfl
  | cons bt rest ih =>
    intro a b s
    simp only [List.map_cons, List.cons_append, evalLoop]
    exact ih _ _ _

/-- C1 counterexample: on a classifier in training mode and a loader that
raises at its first batch, `evaluate_on_loader` exits with the mode flag
still `false` (eval): `self.train(mode=training)` is on the straight-line
path only, there is no `finally`, so the flag is not restored to its pre-call
value on the error path. -/
theorem claim_C1_counterexample :
    (evaluate_on_loader exMetrics exClassifier [Except.error ()]).2 ≠
      exClassifier.training := by
  have h : evaluate_on_loader exMetrics exClassifier [Except.error ()] = (none, false) := rfl
  have ht : exClassifier.training = true := rfl
  rw [h, ht]
  simp

/-- C1 (amended): the mode flag is restored to its pre-call value only on the
normal exit path (the loader iterates to completion and the accumulated total
is nonzero); when an exception is raised mid-iteration the method exits with
the flag left at `false` (eval mode), not at its pre-call value. -/
theorem claim_C1_amended (ce : MetricsHelper) (c : BayesianClassifier)
    (bs pre : List Batch) (e : Unit) (post : List (Except Unit Batch))
    (hpos : runTotals ce c bs ≠ 0) :
    (evaluate_on_loader ce c (bs.map Except.ok)).2 = c.training
    ∧ (evaluate_on_loader ce c (pre.map Except.ok ++ Except.error e :: post)).2 = false := by
  constructor
  · unfold evaluate_on_loader
    rw [evalLoop_ok_eq]
    simp only [zero_add]
    rw [if_neg hpos]
  · unfold evaluate_on_loader
    rw [evalLoop_error_eq]

/-- C1 witness: on the concrete classifier and the singleton good loader, the
flag is restored on the normal path, and a first-batch failure leaves it at
`false`. -/
theorem claim_C1_witness :
    (evaluate_on_loader exMetrics exClassifier ([exBatch].map Except.ok)).2 =
      exClassifier.training :=
  (claim_C1_amended exMetrics exClassifier [exBatch] [] () []
    (by norm_num [runTotals, exMetrics])).1

/-- C9: over a finite loader of good batches whose accumulated total count is
strictly positive, `evaluate_on_loader` returns
`(1 - corrects/totals, summed_surrogate/totals)` with the three running sums
accumulating the metrics helper's per-batch counts and the per-batch summed
surrogate, and restores the mode flag; on an empty loader the final division
raises (`none`) instead of silently returning a value; and on a single batch
on which the helper reports every prediction correct, the returned error is
`0.0` and the surrogate aggregate is the batch's summed surrogate over its
total count. -/
theorem claim_C9 (ce : MetricsHelper) (c : BayesianClassifier) (bs : List Batch)
    (hpos : 0 < runTotals ce c bs) :
    evaluate_on_loader ce c (bs.map Except.ok) =
      (some (1 - runCorrects ce c bs / runTotals ce c bs,
        runSurrogates ce c bs / runTotals ce c bs), c.training)
    ∧ (evaluate_on_loader ce c []).1 = none
    ∧ (∀ b tot, ce (c.forward b.1 "MC") b.2 = (tot, tot) → 0 < tot →
        (evaluate_on_loader ce c [Except.ok b]).1 =
          some (0, (surrogate (c.forward b.1 "MC") b.2 c.prob_threshold
            c.normalize_surrogate_by_log_classes).sum / tot)) := by
  refine ⟨?_, ?_, ?_⟩
  · unfold evaluate_on_loader
    rw [evalLoop_ok_eq]
    simp only [zero_add]
    rw [if_neg (ne_of_gt hpos)]
  · simp [evaluate_on_loader, evalLoop]
  · intro b tot hce htot
    unfold evaluate_on_loader
    rw [show evalLoop ce c [Except.ok b] 0 0 0 =
        some (0 + runCorrects ce c [b], 0 + runTotals ce c [b], 0 + runSurrogates ce c [b])
      from evalLoop_ok_eq ce c [b] 0 0 0]
    simp only [zero_add, runCorrects, runTotals, runSurrogates, List.map_cons,
      List.map_nil, List.sum_cons, List.sum_nil, add_zero, hce]
    rw [if_neg (ne_of_gt htot)]
    rw [div_self (ne_of_gt htot)]
    norm_num

/-- C9 witness: single good batch, every prediction correct (the concrete
helper reports 1 of 1): the method returns the accumulated ratios and the
restored flag. -/
theorem claim_C9_witness :
    evaluate_on_loader exMetrics exClassifier ([exBatch].map Except.ok) =
      (some (1 - runCorrects exMetrics exClassifier [exBatch] /
          runTotals exMetrics exClassifier [exBatch],
        runSurrogates exMetrics exClassifier [exBatch] /
          runTotals exMetrics exClassifier [exBatch]),
       exClassifier.training) :=
  (claim_C9 exMetrics exClassifier [exBatch] (by norm_num [runTotals, exMetrics])).1

/-- C8: evaluation of the code at the failing configuration.  Construction
with `normalize_surrogate_by_log_classes = True` succeeds unconditionally
(the flag is stored, nothing is rejected), and at a single-class `probs`
(trailing dimension 1) the surrogate divides a nonzero numerator by
`log(1) = 0` with no guard: in the tensor arithmetic of the source this
division by `0.0` silently yields `inf`, contradicting the claim that the
configuration is rejected at construction or guarded at the call. -/
theorem claim_C8 :
    (mkBayesianClassifier [exLayer] (1 / 4) true false).normalize_surrogate_by_log_classes = true
    ∧ surrogate [[(1 : ℝ) / 2]] [0] (1 / 4) true =
        [-Real.log (min (max ((1 : ℝ) / 2) (1 / 4)) 1) / Real.log ((1 : ℕ) : ℝ)]
    ∧ Real.log ((1 : ℕ) : ℝ) = 0
    ∧ -Real.log (min (max ((1 : ℝ) / 2) (1 / 4)) 1) ≠ 0 := by
  refine ⟨rfl, rfl, by simp, ?_⟩
  have hmin : min (max ((1 : ℝ) / 2) (1 / 4)) 1 = 1 / 2 := by norm_num
  rw [hmin]
  have hl : Real.log ((1 : ℝ) / 2) < 0 := Real.log_neg (by norm_num) (by norm_num)
  intro h
  have h0 : Real.log ((1 : ℝ) / 2) = 0 := neg_eq_zero.mp h
  linarith

end PacBayes
